import Mathlib

/-!
Shallow embedding of the Beer_client repository's session/bill core.

Sources embedded here:
  * `src/utils/csv_utils.py` — `load_menu`, `init_bill`, `append_bill`,
    `save_menu_rows`, `BILL_RE` / `parse_bill_name`, `bill_total`;
  * `src/app2.py` — the ORDER-tab closures `add_item`, `sub_item`,
    `upload_image`, the background `_capture_and_predict`, and the
    session operations `start_session` / `finish_session`;
  * `src/models/inference.py` — the `UNKNOWN_NAME` constant.

Python `float` prices are modelled as `ℚ`(the CSV stores decimal text and
every operation the claims touch is exact decimal arithmetic); Python
dicts are modelled as insertion-ordered association lists with
first-match lookup (Python dicts have unique keys, so first = only
match); the bills directory is an association list from file name
(a `List Char`) to the list of data rows of that CSV file (the header
row written by `init_bill` is not a data row and `bill_total`'s
`DictReader` skips it, so it is not modelled).
-/

namespace Beer

/-- The constant `UNKNOWN_NAME` from `src/models/inference.py`: the placeholder name
`predict` returns when the best probability is below `THRESHOLD`.  The
source comments that it must match an entry of `menu.csv`. -/
def UNKNOWN_NAME : String := "Món Chưa Xác Định"

/-! ### Python dicts as association lists -/

/-- Python `d[k]` read: first (= unique) binding of `k`, `none` models `KeyError`. -/
def dlookup {α : Type} (d : List (String × α)) (k : String) : Option α :=
  match d with
  | [] => none
  | (k2, v) :: rest => if k2 = k then some v else dlookup rest k

/-- Python `d[k] = v` write for a key already present (every write in the
embedded code is preceded by a successful read of the same key, so the
absent-key case never arises; it is modelled as a no-op). -/
def dupdate {α : Type} (d : List (String × α)) (k : String) (v : α) :
    List (String × α) :=
  match d with
  | [] => []
  | (k2, v2) :: rest =>
    if k2 = k then (k2, v) :: rest else (k2, v2) :: dupdate rest k v

/-- Python `d[k] = v` write with dict semantics: overwrite in place if
present, else append at the end (insertion order).  Used by `load_menu`'s
row loop. -/
def dinsert {α : Type} (d : List (String × α)) (k : String) (v : α) :
    List (String × α) :=
  if (dlookup d k).isSome then dupdate d k v else d ++ [(k, v)]

/-! ### Ledger lines and the bills directory -/

/-- One data row of a bill CSV: `item,qty,unit_price,total_line`
(`append_bill` writes `total_line = qty * unit_price`). -/
structure LedgerLine where
  item : String
  qty : Nat
  unitPrice : ℚ
  totalLine : ℚ
deriving DecidableEq

/-- The `data/bills` directory: file name (list of characters) paired
with the file's data rows. -/
abbrev FSt : Type := List (List Char × List LedgerLine)

/-- Content of the file called `name`, `none` if absent. -/
def fsLookup (fs : FSt) (name : List Char) : Option (List LedgerLine) :=
  match fs with
  | [] => none
  | (n, ls) :: rest => if n = name then some ls else fsLookup rest name

/-- Delete every entry called `name`. -/
def fsRemove (fs : FSt) (name : List Char) : FSt :=
  fs.filter (fun p => if p.1 = name then false else true)

/-- The `open(name, "w")`-style create-or-truncate followed by writing
`content`: any old entry is replaced. -/
def fsSet (fs : FSt) (name : List Char) (content : List LedgerLine) : FSt :=
  fsRemove fs name ++ [(name, content)]

/-- An `open(name, "a")` plus one `writer.writerow`: appends to the file,
creating it (without a header, as in the source) when it is absent. -/
def fsAppendRow (fs : FSt) (name : List Char) (l : LedgerLine) : FSt :=
  match fsLookup fs name with
  | some c => fsSet fs name (c ++ [l])
  | none => fsSet fs name [l]

/-- POSIX `os.rename(old, new)`: moves the content, silently
replacing an existing `new`; no-op if `old` is absent (the embedded
call sites always rename an existing file). -/
def fsRename (fs : FSt) (old new : List Char) : FSt :=
  match fsLookup fs old with
  | some c => fsSet (fsRemove fs old) new c
  | none => fs

/-! ### `csv_utils.append_bill` and `csv_utils.bill_total` -/

/-- The function `append_bill(path, item, qty, unit_price)` from
`src/utils/csv_utils.py` lines 34–43: returns without writing when
`qty == 0`, otherwise appends one row `item,qty,unit_price,qty*unit_price`. -/
def append_bill (fs : FSt) (path : List Char) (item : String) (qty : Nat)
    (unit_price : ℚ) : FSt :=
  if qty = 0 then fs
  else fsAppendRow fs path ⟨item, qty, unit_price, qty * unit_price⟩

/-- The function `bill_total(path)` from `src/utils/csv_utils.py` lines 78-86: the sum
of the `total_line` column over all data rows of the file. -/
def bill_total (fs : FSt) (path : List Char) : ℚ :=
  (((fsLookup fs path).getD []).map (fun l => l.totalLine)).sum

/-! ### The active session (the `order_state` entries of `src/app2.py`) -/

/-- The entries `start_session` stores into the global `order_state`
dict (`src/app2.py` lines 210–216): the menu snapshot, the quantity map,
the bill file name and the start-time string. -/
structure Sess where
  menu : List (String × ℚ)
  qtys : List (String × Nat)
  billName : List Char
  startStr : List Char
deriving DecidableEq

/-- Result of one quantity mutation: `ok` is normal completion; `err`
is an uncaught Python `KeyError`, carrying the state as it stands when
the exception is raised (the Tk main loop only logs the traceback and
the program keeps running with that state). -/
inductive AdjResult where
  | ok (fs : FSt) (s : Sess)
  | err (fs : FSt) (s : Sess)
deriving DecidableEq

/-- The closure `add_item(n)` from `src/app2.py` lines 309-313:
`qtys[n] += 1` (a `KeyError` when `n` is not a key — nothing mutated yet),
then `append_bill(bill, n, qtys[n], menu[n])` (`menu[n]` raises after the
quantity was already incremented when `n` is not on the menu). -/
def add_item (fs : FSt) (s : Sess) (n : String) : AdjResult :=
  match dlookup s.qtys n with
  | none => .err fs s
  | some q =>
    let s1 : Sess := { s with qtys := dupdate s.qtys n (q + 1) }
    match dlookup s.menu n with
    | none => .err fs s1
    | some p => .ok (append_bill fs s1.billName n (q + 1) p) s1

/-- The closure `sub_item(n)` from `src/app2.py` lines 315-321: early return when the
quantity is already zero, otherwise decrement and `append_bill` with the
new quantity (which `append_bill` drops when that new quantity is zero). -/
def sub_item (fs : FSt) (s : Sess) (n : String) : AdjResult :=
  match dlookup s.qtys n with
  | none => .err fs s
  | some 0 => .ok fs s
  | some (q + 1) =>
    let s1 : Sess := { s with qtys := dupdate s.qtys n q }
    match dlookup s.menu n with
    | none => .err fs s1
    | some p => .ok (append_bill fs s1.billName n q p) s1

/-! ### Digits and the strings `f"{...}"` formatting produces -/

/-- The decimal digit character for `n < 10`. -/
def digit (n : Nat) : Char := Char.ofNat (48 + n)

/-- Two-digit zero-padded rendering, as `strftime` `%H`, `%M`, `%d`, `%m`
produce for values below 100. -/
def two (n : Nat) : List Char := [digit (n / 10), digit (n % 10)]

/-- Four-digit rendering of the year, as `strftime` `%Y` produces for
years below 10000. -/
def four (n : Nat) : List Char :=
  [digit (n / 1000), digit (n / 100 % 10), digit (n / 10 % 10), digit (n % 10)]

/-- Fuelled decimal rendering of a natural number (fuel `n + 1` always
suffices, see `natChars_eq`). -/
def natCharsF : Nat → Nat → List Char
  | 0, _ => []
  | f + 1, n =>
    if n < 10 then [digit n] else natCharsF f (n / 10) ++ [digit (n % 10)]

/-- Python `str(n)` for a non-negative integer: its decimal digits. -/
def natChars (n : Nat) : List Char := natCharsF (n + 1) n

/-- The `HH-MM` time string the start-time f-string format produces. -/
def timeChars (h m : Nat) : List Char := two h ++ '-' :: two m

/-- The `dd-mm-yyyy` date string the date f-string format produces. -/
def dateChars (d mo y : Nat) : List Char :=
  two d ++ '-' :: two mo ++ '-' :: four y

/-- The stem `start_session` builds at `src/app2.py` line 204:
`bill_<tableId>_<startHH-MM>_<dd-mm-yyyy>`. -/
def startStem (t h m d mo y : Nat) : List Char :=
  "bill_".toList ++ natChars t ++ '_' :: timeChars h m ++ '_' :: dateChars d mo y

/-- The `.csv` file name `start_session` renames the temporary bill to. -/
def startFileName (t h m d mo y : Nat) : List Char :=
  startStem t h m d mo y ++ ".csv".toList

/-- The temporary name `init_bill(table_id, "tmp")` creates
(`src/utils/csv_utils.py` line 28 with `session_id = "tmp"`). -/
def tmpName (t : Nat) : List Char :=
  "bill_".toList ++ natChars t ++ "_tmp.csv".toList

/-! ### `Path.stem` / `Path.suffix` and `str.split("_")` -/

/-- Split a name at its last dot: `some (before, after)` without the
dot itself, `none` when there is no dot. -/
def splitAtLastDot : List Char → Option (List Char × List Char)
  | [] => none
  | c :: cs =>
    match splitAtLastDot cs with
    | some (b, a) => some (c :: b, a)
    | none => if c = '.' then some ([], cs) else none

/-- Python `Path(name).stem`: the name with its final suffix removed. -/
def stemOf (cs : List Char) : List Char :=
  match splitAtLastDot cs with
  | some (b, _) => b
  | none => cs

/-- Python `Path(name).suffix`: the final `.ext` part, `[]` when there is none. -/
def sfxOf (cs : List Char) : List Char :=
  match splitAtLastDot cs with
  | some (_, a) => '.' :: a
  | none => []

/-- Python `str.split("_")` on a list of characters. -/
def splitUnd : List Char → List (List Char)
  | [] => [[]]
  | c :: rest =>
    if c = '_' then [] :: splitUnd rest
    else
      match splitUnd rest with
      | p :: ps => (c :: p) :: ps
      | [] => [[c]]

/-- Python `"_".join(parts)`. -/
def joinUnd : List (List Char) → List Char
  | [] => []
  | [p] => p
  | p :: ps => p ++ '_' :: joinUnd ps

/-! ### Session lifecycle (`start_session` / `finish_session`) -/

/-- The whole application state the ORDER tab touches: the bills
directory on disk, the `order_state["active"]` flag, and the session
entries of `order_state` (bundled in `Sess`, absent when cleared). -/
structure App where
  fs : FSt
  active : Bool
  sess : Option Sess
deriving DecidableEq

/-- User-visible outcome of `start_session`. -/
inductive StartOut where
  | emptyMenuWarn
  | started
deriving DecidableEq

/-- The function `start_session()` from `src/app2.py` lines 195-217, with the
`load_menu()` result and the clock reading passed in as arguments: an
empty menu shows the "Empty menu" warning and changes nothing; otherwise
`init_bill` creates the temporary bill, it is renamed to the
timestamped name, and `order_state` becomes active with all quantities
zero. -/
def start_session (app : App) (menu : List (String × ℚ)) (t h m d mo y : Nat) :
    App × StartOut :=
  if menu = [] then (app, .emptyMenuWarn)
  else
    let tmp := tmpName t
    let bill := startFileName t h m d mo y
    let fs1 := fsSet app.fs tmp []
    let fs2 := fsRename fs1 tmp bill
    ({ fs := fs2
       active := true
       sess := some
         { menu := menu
           qtys := menu.map (fun pr => (pr.1, 0))
           billName := bill
           startStr := timeChars h m } },
     .started)

/-- The function `finish_session()` from `src/app2.py` lines 220-231, with the clock
reading passed in: splits the bill stem on `_`, inserts the end time
before the date when the stem still has exactly 4 parts, renames the
file, then clears `order_state` down to `{"active": False}`.  `none`
models the `KeyError` on `order_state["bill"]` when no session exists. -/
def finish_session (app : App) (eh em : Nat) : Option App :=
  match app.sess with
  | none => none
  | some s =>
    let endT := timeChars eh em
    let parts := splitUnd (stemOf s.billName)
    let fs' :=
      if parts.length = 4 then
        fsRename app.fs s.billName
          (joinUnd (parts.take 3 ++ [endT] ++ parts.drop 3) ++ sfxOf s.billName)
      else app.fs
    some { fs := fs', active := false, sess := none }

/-! ### `_capture_and_predict` and `upload_image` -/

/-- Observable outcome of one `_capture_and_predict` run (each variant
is a log line or silent return in the source; none of them opens a
dialog). -/
inductive CapOut where
  | skippedBusy
  | noFrame
  | ignoredUnknown
  | applied (n : String)
  | applyKeyError (n : String)
deriving DecidableEq

/-- The function `_capture_and_predict(add_fn)` from `src/app2.py` lines 164-187,
sequentialized: `busy` is whether another capture holds `cap_lock` (the
non-blocking acquire then fails), `frameOk` whether `capture_frame()`
returned a frame, `n` the classifier's answer, and the scheduled
`add_fn(name)` (always the `add_item` closure) is folded in as the final
step.  Note the applying step never consults `order_state["active"]`. -/
def capture_and_predict (busy frameOk : Bool) (n : String) (fs : FSt)
    (s : Sess) : (FSt × Sess) × CapOut :=
  if busy then ((fs, s), .skippedBusy)
  else if frameOk = false then ((fs, s), .noFrame)
  else if n = UNKNOWN_NAME then ((fs, s), .ignoredUnknown)
  else
    match add_item fs s n with
    | .ok fs' s' => ((fs', s'), .applied n)
    | .err fs' s' => ((fs', s'), .applyKeyError n)

/-- What happened in the file dialog / image read / classification of
`upload_image`. -/
inductive UpIn where
  | cancelled
  | unreadable
  | image (n : String)
deriving DecidableEq

/-- The user-visible result of `upload_image`. -/
inductive UpMsg where
  | silent
  | errorCannotRead
  | infoAdded (n : String)
  | uncaughtKeyError
deriving DecidableEq

/-- The function `upload_image()` from `src/app2.py` lines 333-345: a cancelled
dialog returns silently; an unreadable file shows the "Cannot read
image" error; otherwise `add_item(model.predict(img))` runs — with no
filtering of `UNKNOWN_NAME` — and the "Added" info box is shown, unless
`add_item` raises `KeyError`, which escapes the Tk callback (console
traceback, no dialog, `showinfo` never runs). -/
def upload_image (fs : FSt) (s : Sess) : UpIn → (FSt × Sess) × UpMsg
  | .cancelled => ((fs, s), .silent)
  | .unreadable => ((fs, s), .errorCannotRead)
  | .image n =>
    match add_item fs s n with
    | .ok fs' s' => ((fs', s'), .infoAdded n)
    | .err fs' s' => ((fs', s'), .uncaughtKeyError)

/-! ### Sequences of mutations on one active session -/

/-- One operation of the claims' "manual-adjust / applied-capture-result"
sequences: a `+` click, a `-` click, or one sensor-triggered
`_capture_and_predict` run (busy flag, frame success and classifier
answer included). -/
inductive Op where
  | inc (n : String)
  | dec (n : String)
  | cap (busy frameOk : Bool) (n : String)
deriving DecidableEq

/-- Apply one operation.  An uncaught `KeyError` from a manual click is
swallowed by the Tk main loop with the state as the exception left it,
so the run continues from that state. -/
def stepOp (p : FSt × Sess) (op : Op) : FSt × Sess :=
  match op with
  | .inc n =>
    match add_item p.1 p.2 n with
    | .ok fs' s' => (fs', s')
    | .err fs' s' => (fs', s')
  | .dec n =>
    match sub_item p.1 p.2 n with
    | .ok fs' s' => (fs', s')
    | .err fs' s' => (fs', s')
  | .cap busy frameOk n => (capture_and_predict busy frameOk n p.1 p.2).1

/-- Run a sequence of operations. -/
def runOps (p : FSt × Sess) (ops : List Op) : FSt × Sess :=
  ops.foldl stepOp p

/-- The ORDER tab's displayed total (`update_total`, `src/app2.py`
line 289): `sum(qtys[n] * menu[n] for n in qtys)`. -/
def stateTotal (s : Sess) : ℚ :=
  (s.qtys.map (fun q => (q.2 : ℚ) * ((dlookup s.menu q.1).getD 0))).sum

/-! ### `BILL_RE.fullmatch` and `parse_bill_name`

`BILL_RE` (`src/utils/csv_utils.py` lines 56–61) is
`bill_(\d+)_(\d{1,2}-\d{2})_(?:(\d{1,2}-\d{2})_)?(\d{1,2}-\d{1,2}-\d{4})`,
used with `fullmatch` on the file stem.  The matcher below implements
exactly this pattern's `fullmatch`, with the regex engine's backtracking
order made explicit: each `\d{1,2}` tries two digits before one, and the
optional end-time group tries to match before being skipped.  (`\d+_`
needs no backtracking alternatives: every shorter digit prefix is
followed by a digit, never by `_`.) -/

/-- The digit prefix of a character list and the rest (`\d*`). -/
def leadDigits : List Char → List Char × List Char
  | [] => ([], [])
  | c :: cs =>
    if c.isDigit then
      let p := leadDigits cs
      (c :: p.1, p.2)
    else ([], c :: cs)

/-- The numeric value of a digit string, as Python `int()` reads it. -/
def digitsVal (ds : List Char) : Nat :=
  ds.foldl (fun a c => 10 * a + (c.toNat - 48)) 0

/-- Pattern `(\d+)_`: one or more digits followed by an underscore; yields the
digits' value and the rest after the underscore. -/
def parseNatU (cs : List Char) : Option (Nat × List Char) :=
  match leadDigits cs with
  | ([], _) => none
  | (ds, '_' :: rest) => some (digitsVal ds, rest)
  | (_, _) => none

/-- Pattern `(\d{2}-\d{2})_`: yields the matched `HH-MM` characters and the rest
after the underscore. -/
def parseTime2U : List Char → Option (List Char × List Char)
  | a :: b :: c :: d :: e :: f :: rest =>
    if a.isDigit && b.isDigit && c = '-' && d.isDigit && e.isDigit && f = '_'
    then some ([a, b, '-', d, e], rest) else none
  | _ => none

/-- Pattern `(\d-\d{2})_`: the one-digit-hour alternative. -/
def parseTime1U : List Char → Option (List Char × List Char)
  | a :: b :: c :: d :: e :: rest =>
    if a.isDigit && b = '-' && c.isDigit && d.isDigit && e = '_'
    then some ([a, '-', c, d], rest) else none
  | _ => none

/-- Exactly `k` digits from the front. -/
def takeDigits : Nat → List Char → Option (List Char × List Char)
  | 0, cs => some ([], cs)
  | _ + 1, [] => none
  | k + 1, c :: cs =>
    if c.isDigit then
      match takeDigits k cs with
      | some (ds, r) => some (c :: ds, r)
      | none => none
    else none

/-- Pattern `\d{dk}-\d{mk}-\d{4}` consuming the whole remaining input (the date
is the last group of the pattern and `fullmatch` anchors the end). -/
def parseDateW (dk mk : Nat) (cs : List Char) : Option (List Char) :=
  match takeDigits dk cs with
  | some (ds, '-' :: r1) =>
    match takeDigits mk r1 with
    | some (ms, '-' :: r2) =>
      match takeDigits 4 r2 with
      | some (ys, []) => some (ds ++ '-' :: ms ++ '-' :: ys)
      | _ => none
    | _ => none
  | _ => none

/-- Pattern `(\d{1,2}-\d{1,2}-\d{4})` to the end of input, trying the greedy
widths first like the regex engine does. -/
def parseDate (cs : List Char) : Option (List Char) :=
  match parseDateW 2 2 cs with
  | some dt => some dt
  | none =>
    match parseDateW 2 1 cs with
    | some dt => some dt
    | none =>
      match parseDateW 1 2 cs with
      | some dt => some dt
      | none => parseDateW 1 1 cs

/-- The optional-end-time tail `(?:(\d{1,2}-\d{2})_)?(date)`: try the
end-time group (two-digit hour, then one-digit hour), fall back to the
date alone. -/
def parseAfterStart (cs : List Char) : Option (Option (List Char) × List Char) :=
  match parseTime2U cs with
  | some (e, r) =>
    match parseDate r with
    | some dt => some (some e, dt)
    | none => parseAfterStartNo2 cs
  | none => parseAfterStartNo2 cs
where
  /-- The alternatives after the two-digit-hour end-time branch failed. -/
  parseAfterStartNo2 (cs : List Char) : Option (Option (List Char) × List Char) :=
    match parseTime1U cs with
    | some (e, r) =>
      match parseDate r with
      | some dt => some (some e, dt)
      | none =>
        match parseDate cs with
        | some dt => some (none, dt)
        | none => none
    | none =>
      match parseDate cs with
      | some dt => some (none, dt)
      | none => none

/-- The groups `parse_bill_name` returns on a successful match. -/
structure BillMeta where
  table : Nat
  startT : List Char
  endT : Option (List Char)
  date : List Char
deriving DecidableEq

/-- The start-time group and everything after it, given the table id. -/
def parseStartRest (t : Nat) (s r2 : List Char) : Option BillMeta :=
  match parseAfterStart r2 with
  | some (e, dt) => some ⟨t, s, e, dt⟩
  | none => none

/-- Runs `BILL_RE.fullmatch` on a stem, returning the captured groups. -/
def parseBillStem (cs : List Char) : Option BillMeta :=
  match cs with
  | 'b' :: 'i' :: 'l' :: 'l' :: '_' :: rest =>
    match parseNatU rest with
    | some (t, r1) =>
      (match parseTime2U r1 with
       | some (s, r2) =>
         match parseStartRest t s r2 with
         | some meta => some meta
         | none => parseStart1 t r1
       | none => parseStart1 t r1)
    | none => none
  | _ => none
where
  /-- The one-digit-hour alternative for the start-time group. -/
  parseStart1 (t : Nat) (r1 : List Char) : Option BillMeta :=
    match parseTime1U r1 with
    | some (s, r2) => parseStartRest t s r2
    | none => none

/-- The function `parse_bill_name(fname)` from `src/utils/csv_utils.py` lines 63-76:
`BILL_RE.fullmatch(Path(fname).stem)`, `None` on failure, with
`int(table)` applied to the table group. -/
def parse_bill_name (fname : List Char) : Option BillMeta :=
  parseBillStem (stemOf fname)

/-! ### `save_menu_rows` / `load_menu` (the menu CSV) -/

/-- Python `int()` on a rational value: truncation toward zero
(`Int.tdiv` is T-division). -/
def pytrunc (q : ℚ) : ℤ := q.num.tdiv (q.den : ℤ)

/-- One row of `data/menu.csv` as `save_menu_rows` writes it:
`id,name,price` with the price already truncated to an integer. -/
structure MenuRow where
  rowId : Nat
  name : String
  price : ℤ
deriving DecidableEq

/-- The function `save_menu_rows(rows)` from `src/utils/csv_utils.py` lines 45-54:
writes every row back with a fresh 1-based id column and
`int(r["price"])` as the price. -/
def save_menu_rows (rows : List (String × ℚ)) : List MenuRow :=
  (List.range rows.length).zip rows |>.map
    (fun p => ⟨p.1 + 1, p.2.1, pytrunc p.2.2⟩)

/-- The function `load_menu()` from `src/utils/csv_utils.py` lines 11-19, reading the
given file rows: builds the `{name: float(price)}` dict row by row
(a duplicate name overwrites the earlier binding, as dict assignment
does). -/
def load_menu (file : List MenuRow) : List (String × ℚ) :=
  file.foldl (fun menu r => dinsert menu r.name (r.price : ℚ)) []

/-! ### Derived observers and concrete scenarios -/

/-- A ledger line is well-formed for a menu snapshot: its total is its
(strictly positive) cumulative quantity times its unit price, and that
unit price is the item's price on the snapshot. -/
def goodLine (menu : List (String × ℚ)) (l : LedgerLine) : Prop :=
  l.totalLine = (l.qty : ℚ) * l.unitPrice ∧ 1 ≤ l.qty ∧
    dlookup menu l.item = some l.unitPrice

/-- Total number of data rows across all files of the bills directory. -/
def totLines (fs : FSt) : Nat := (fs.map (fun p => p.2.length)).sum

/-- The file system a quantity mutation left behind (same for normal
completion and for an escaped `KeyError`). -/
def adjFs : AdjResult → FSt
  | .ok fs _ => fs
  | .err fs _ => fs

/-- The session entries a quantity mutation left behind. -/
def adjSess : AdjResult → Sess
  | .ok _ s => s
  | .err _ s => s

/-- The file name `finish_session`'s rename produces for a bill started
at `h:m` on `d/mo/y` at table `t` and finished at `eh:em`:
`bill_<t>_<HH-MM>_<HH-MM>_<dd-mm-yyyy>.csv`. -/
def finishedFileName (t h m eh em d mo y : Nat) : List Char :=
  "bill_".toList ++ natChars t ++ '_' :: timeChars h m ++ '_' ::
    timeChars eh em ++ '_' :: dateChars d mo y ++ ".csv".toList

/-- An application state with no bills on disk and no session. -/
def app0 : App := ⟨[], false, none⟩

/-- A one-item menu: item `"A"` at unit price 10. -/
def menuA : List (String × ℚ) := [("A", 10)]

/-- The scenario: a session on `menuA` started at table 1 at 09:00 on
12-10-2025. -/
def st1 : App × StartOut := start_session app0 menuA 1 9 0 12 10 2025

/-- The session record `st1` creates (checked against the model by
`st1_sess` below). -/
def s1 : Sess :=
  ⟨menuA, [("A", 0)], startFileName 1 9 0 12 10 2025, timeChars 9 0⟩

/-- The application state after `finish_session` at 09:30 closed the
`st1` session (the `getD` fallback is never taken, see the associated
theorem). -/
def app2 : App := (finish_session st1.1 9 30).getD app0

/-- A menu that carries the classifier's `UNKNOWN_NAME` placeholder as
an item, as `src/models/inference.py` says `menu.csv` must. -/
def menuU : List (String × ℚ) := [("Bia Tiger", 20), (UNKNOWN_NAME, 0)]

/-- A session on `menuU` started at table 1 at 09:00 on 12-10-2025. -/
def stU : App × StartOut := start_session app0 menuU 1 9 0 12 10 2025

/-- The session record `stU` creates. -/
def sU : Sess :=
  ⟨menuU, [("Bia Tiger", 0), (UNKNOWN_NAME, 0)],
    startFileName 1 9 0 12 10 2025, timeChars 9 0⟩

/-! ## Lemmas about the embedding -/

lemma st1_sess : st1.1.sess = some s1 := by decide

lemma stU_sess : stU.1.sess = some sU := by decide

/-! ### Character-level facts -/

lemma digit_isDigit : ∀ k, k < 10 → (digit k).isDigit = true := by decide

lemma digit_toNat : ∀ k, k < 10 → (digit k).toNat = 48 + k := by decide

lemma digit_ne_dash : ∀ k, k < 10 → digit k ≠ '-' := by decide

lemma digit_ne_und : ∀ k, k < 10 → digit k ≠ '_' := by decide

lemma digit_ne_dot : ∀ k, k < 10 → digit k ≠ '.' := by decide

lemma isDigit_ne_und {c : Char} (h : c.isDigit = true) : c ≠ '_' := by
  intro hc
  subst hc
  simp at h

/-! ### File-system lemmas -/

lemma fsLookup_fsRemove_append (fs : FSt) (name : List Char)
    (rest : FSt) : fsLookup (fsRemove fs name ++ rest) name = fsLookup rest name := by
  induction fs with
  | nil => simp [fsRemove]
  | cons hd tl ih =>
    by_cases h : hd.1 = name
    · simpa [fsRemove, List.filter, h] using ih
    · simpa [fsRemove, List.filter, h, fsLookup] using ih

lemma fsLookup_fsSet_self (fs : FSt) (name : List Char)
    (c : List LedgerLine) : fsLookup (fsSet fs name c) name = some c := by
  unfold fsSet
  rw [fsLookup_fsRemove_append]
  simp [fsLookup]

lemma fsLookup_fsAppendRow_self (fs : FSt) (name : List Char) (l : LedgerLine) :
    fsLookup (fsAppendRow fs name l) name
      = some ((fsLookup fs name).getD [] ++ [l]) := by
  unfold fsAppendRow
  cases h : fsLookup fs name with
  | none => simp [fsLookup_fsSet_self]
  | some c => simp [fsLookup_fsSet_self]

/-! ## Claim C4 — busy-skip of `triggerCapture` -/

/-- C4: a sensor trigger arriving while a prior capture still holds
`cap_lock` (`acquire(blocking=False)` fails) returns immediately with
the busy-skip outcome: the bills directory and the session state are
untouched, no quantity changes and no ledger row is appended. -/
theorem c4_trigger_busy_skip (frameOk : Bool) (n : String) (fs : FSt)
    (s : Sess) : capture_and_predict true frameOk n fs s = ((fs, s), .skippedBusy) := by
  simp [capture_and_predict]

/-! ## Claim C7 — decrement at zero is a no-op -/

/-- C7: for an item whose quantity is zero, `sub_item` returns before
mutating anything: the quantity map is unchanged (stays zero) and no
ledger row is appended, and no error is raised. -/
theorem c7_dec_at_zero_noop (fs : FSt) (s : Sess) (n : String)
    (h : dlookup s.qtys n = some 0) : sub_item fs s n = .ok fs s := by
  simp [sub_item, h]

/-- Witness for C7 at a concrete session: item `"A"` at quantity zero. -/
theorem c7_witness :
    dlookup s1.qtys "A" = some 0 ∧ sub_item st1.1.fs s1 "A" = .ok st1.1.fs s1 :=
  ⟨by decide, c7_dec_at_zero_noop st1.1.fs s1 "A" (by decide)⟩

/-! ## Claim C3 — quantity mutations, clamping and appended lines -/

/-- C3 counterexample: manually decrementing `"A"` from quantity 1 to 0
is a quantity mutation, yet it appends **no** ledger line
(`append_bill` drops rows with `qty == 0`): after `[inc "A", dec "A"]`
the quantity map differs from the one after `[inc "A"]` alone, while
the bills directory is byte-for-byte identical.  This refutes "appends
exactly one LedgerLine per call" for every quantity mutation. -/
theorem c3_counterexample :
    (runOps (st1.1.fs, s1) [.inc "A", .dec "A"]).2.qtys
        ≠ (runOps (st1.1.fs, s1) [.inc "A"]).2.qtys
    ∧ (runOps (st1.1.fs, s1) [.inc "A", .dec "A"]).1
        = (runOps (st1.1.fs, s1) [.inc "A"]).1 := by
  norm_num [st1, s1, app0, menuA, start_session, runOps, stepOp, add_item,
    sub_item, capture_and_predict, append_bill, fsAppendRow, fsSet, fsRemove,
    fsRename, fsLookup, dlookup, dupdate, startFileName, startStem, tmpName,
    natChars, natCharsF, timeChars, dateChars, two, four, digit]

/-- C3 amended: a manual increment (also the increment performed for a
sensor or upload result) always appends exactly one ledger line carrying
the item's new cumulative quantity `q + 1` (not a delta); a manual
decrement clamps at zero and appends exactly one such line when the new
quantity is still positive, but appends none when the quantity is
already zero (no-op) or drops to zero. -/
theorem c3_amended_mutation_lines (fs : FSt) (s : Sess) (n : String)
    (q : Nat) (p : ℚ) (hq : dlookup s.qtys n = some q)
    (hp : dlookup s.menu n = some p) :
    add_item fs s n
        = .ok (fsAppendRow fs s.billName ⟨n, q + 1, p, ((q + 1 : Nat) : ℚ) * p⟩)
            { s with qtys := dupdate s.qtys n (q + 1) }
    ∧ sub_item fs s n
        = match q with
          | 0 => .ok fs s
          | 1 => .ok fs { s with qtys := dupdate s.qtys n 0 }
          | k + 2 =>
            .ok (fsAppendRow fs s.billName ⟨n, k + 1, p, ((k + 1 : Nat) : ℚ) * p⟩)
              { s with qtys := dupdate s.qtys n (k + 1) } := by
  constructor
  · simp [add_item, hq, hp, append_bill]
  · cases q with
    | zero => simp [sub_item, hq]
    | succ k =>
      cases k with
      | zero => simp [sub_item, hq, hp, append_bill]
      | succ j => simp [sub_item, hq, hp, append_bill]

/-- Witness for C3 at the concrete `st1` session (item `"A"`,
quantity 0, price 10). -/
theorem c3_witness :
    dlookup s1.qtys "A" = some 0 ∧ dlookup s1.menu "A" = some 10
    ∧ (add_item st1.1.fs s1 "A"
        = .ok (fsAppendRow st1.1.fs s1.billName ⟨"A", 0 + 1, 10, ((0 + 1 : Nat) : ℚ) * 10⟩)
            { s1 with qtys := dupdate s1.qtys "A" (0 + 1) }
      ∧ sub_item st1.1.fs s1 "A" = .ok st1.1.fs s1) :=
  ⟨by decide, by decide,
    c3_amended_mutation_lines st1.1.fs s1 "A" 0 10 (by decide) (by decide)⟩

/-! ## Claim C5 — manual upload error handling -/

/-- C5 counterexample: during the active `stU` session (whose menu
carries the `UNKNOWN_NAME` placeholder, as `src/models/inference.py`
requires of `menu.csv`), a manual upload whose classification is the
low-confidence `UNKNOWN_NAME` is **not** surfaced as an error and does
**not** produce zero mutations: `upload_image` runs `add_item` on it
unfiltered, the placeholder's quantity becomes 1, one ledger row is
appended, and the user sees the "Added" info box. -/
theorem c5_counterexample :
    (upload_image stU.1.fs sU (.image UNKNOWN_NAME)).2 = .infoAdded UNKNOWN_NAME
    ∧ dlookup (upload_image stU.1.fs sU (.image UNKNOWN_NAME)).1.2.qtys UNKNOWN_NAME
        = some 1
    ∧ totLines (upload_image stU.1.fs sU (.image UNKNOWN_NAME)).1.1 = 1
    ∧ totLines stU.1.fs = 0 := by
  decide

/-- C5 amended: an unreadable image is surfaced as a "Cannot read image"
error with zero mutations; but a classification result of `UNKNOWN_NAME`
(low confidence) is added to the bill exactly like a recognised item
(quantity increment plus ledger row, with the "Added" info box) whenever
the placeholder is on the menu snapshot; and an item name outside the
snapshot produces zero mutations via an uncaught `KeyError` (a console
traceback), not via an error dialog. -/
theorem c5_amended_upload (fs : FSt) (s : Sess) (q : Nat) (p : ℚ)
    (hq : dlookup s.qtys UNKNOWN_NAME = some q)
    (hp : dlookup s.menu UNKNOWN_NAME = some p) :
    upload_image fs s .unreadable = ((fs, s), .errorCannotRead)
    ∧ upload_image fs s (.image UNKNOWN_NAME)
        = ((fsAppendRow fs s.billName
              ⟨UNKNOWN_NAME, q + 1, p, ((q + 1 : Nat) : ℚ) * p⟩,
            { s with qtys := dupdate s.qtys UNKNOWN_NAME (q + 1) }),
           .infoAdded UNKNOWN_NAME)
    ∧ ∀ n2, dlookup s.qtys n2 = none →
        upload_image fs s (.image n2) = ((fs, s), .uncaughtKeyError) := by
  refine ⟨rfl, ?_, ?_⟩
  · simp [upload_image, add_item, hq, hp, append_bill]
  · intro n2 h2
    simp [upload_image, add_item, h2]

/-- Witness for C5 at the concrete `stU` session. -/
theorem c5_witness :
    dlookup sU.qtys UNKNOWN_NAME = some 0
    ∧ dlookup sU.menu UNKNOWN_NAME = some 0
    ∧ upload_image stU.1.fs sU .unreadable = ((stU.1.fs, sU), .errorCannotRead)
    ∧ upload_image stU.1.fs sU (.image UNKNOWN_NAME)
        = ((fsAppendRow stU.1.fs sU.billName
              ⟨UNKNOWN_NAME, 0 + 1, 0, ((0 + 1 : Nat) : ℚ) * 0⟩,
            { sU with qtys := dupdate sU.qtys UNKNOWN_NAME (0 + 1) }),
           .infoAdded UNKNOWN_NAME)
    ∧ dlookup sU.qtys "Pepsi" = none
    ∧ upload_image stU.1.fs sU (.image "Pepsi") = ((stU.1.fs, sU), .uncaughtKeyError) :=
  ⟨by decide, by decide,
    (c5_amended_upload stU.1.fs sU 0 0 (by decide) (by decide)).1,
    (c5_amended_upload stU.1.fs sU 0 0 (by decide) (by decide)).2.1,
    by decide,
    (c5_amended_upload stU.1.fs sU 0 0 (by decide) (by decide)).2.2 "Pepsi" (by decide)⟩

/-! ## Claim C6 — sensor capture result handling -/

/-- C6 counterexample: the "inactive session ⇒ silently discarded, no
mutation" branch fails on the code.  After `finish_session` closed the
`st1` session (`app2.active = false`, `order_state` cleared), a
late-arriving classified capture result is still applied through the
stale `add_item` closure: the run reports `applied "A"` and one ledger
row is written to disk (re-creating the bill file under its pre-rename
name), where the claim requires zero mutations. -/
theorem c6_counterexample :
    app2.active = false ∧ app2.sess = none
    ∧ (capture_and_predict false true "A" app2.fs s1).2 = .applied "A"
    ∧ totLines (capture_and_predict false true "A" app2.fs s1).1.1 = 1
    ∧ totLines app2.fs = 0 := by
  decide

/-- C6 amended: for a sensor capture run that acquired the lock, a
failed capture produces no mutation, a low-confidence `UNKNOWN_NAME`
classification produces no mutation, a classified name outside the
quantity map produces no mutation (an uncaught `KeyError`, no dialog),
and a classified known name performs exactly the `add_item`
increment-and-append — all regardless of whether the session is still
active, since the code never re-checks `order_state["active"]` when the
result is applied (see C2). -/
theorem c6_amended_capture (fs : FSt) (s : Sess) (n : String) :
    capture_and_predict false false n fs s = ((fs, s), .noFrame)
    ∧ capture_and_predict false true UNKNOWN_NAME fs s = ((fs, s), .ignoredUnknown)
    ∧ (n ≠ UNKNOWN_NAME → dlookup s.qtys n = none →
        capture_and_predict false true n fs s = ((fs, s), .applyKeyError n))
    ∧ (∀ q p, n ≠ UNKNOWN_NAME → dlookup s.qtys n = some q →
        dlookup s.menu n = some p →
        capture_and_predict false true n fs s
          = ((fsAppendRow fs s.billName ⟨n, q + 1, p, ((q + 1 : Nat) : ℚ) * p⟩,
              { s with qtys := dupdate s.qtys n (q + 1) }), .applied n)) := by
  refine ⟨rfl, by simp [capture_and_predict], ?_, ?_⟩
  · intro hn h2
    simp [capture_and_predict, hn, add_item, h2]
  · intro q p hn hq hp
    simp [capture_and_predict, hn, add_item, hq, hp, append_bill]

/-- Witness for C6 at the concrete `stU` session: a classified
`"Bia Tiger"` increments and appends; an out-of-menu `"Pepsi"` result
mutates nothing. -/
theorem c6_witness :
    capture_and_predict false false "Bia Tiger" stU.1.fs sU = ((stU.1.fs, sU), .noFrame)
    ∧ capture_and_predict false true UNKNOWN_NAME stU.1.fs sU
        = ((stU.1.fs, sU), .ignoredUnknown)
    ∧ ("Pepsi" : String) ≠ UNKNOWN_NAME
    ∧ dlookup sU.qtys "Pepsi" = none
    ∧ capture_and_predict false true "Pepsi" stU.1.fs sU
        = ((stU.1.fs, sU), .applyKeyError "Pepsi")
    ∧ ("Bia Tiger" : String) ≠ UNKNOWN_NAME
    ∧ dlookup sU.qtys "Bia Tiger" = some 0
    ∧ dlookup sU.menu "Bia Tiger" = some 20
    ∧ capture_and_predict false true "Bia Tiger" stU.1.fs sU
        = ((fsAppendRow stU.1.fs sU.billName
              ⟨"Bia Tiger", 0 + 1, 20, ((0 + 1 : Nat) : ℚ) * 20⟩,
            { sU with qtys := dupdate sU.qtys "Bia Tiger" (0 + 1) }),
           .applied "Bia Tiger") :=
  ⟨(c6_amended_capture stU.1.fs sU "Bia Tiger").1,
   (c6_amended_capture stU.1.fs sU "Bia Tiger").2.1,
   by decide, by decide,
   (c6_amended_capture stU.1.fs sU "Pepsi").2.2.1 (by decide) (by decide),
   by decide, by decide, by decide,
   (c6_amended_capture stU.1.fs sU "Bia Tiger").2.2.2 0 20 (by decide) (by decide)
     (by decide)⟩

/-! ## Claim C2 — `finishSession` then a late capture result -/

/-- C2: the claim requires that a capture result classified for the
just-closed session, applied after `finish_session()` completed,
produces zero mutations because `status == Active` is re-checked at the
point of applying — the code performs no such check.  This theorem
evaluates the model at the failing input: the `st1` session is finished
(bill renamed to carry the end time, `order_state` cleared), then the
late result `"A"` is applied through the stale `add_item` closure; the
stale quantity map is incremented and one ledger row is written,
re-creating a second bill file under the old (pre-rename) name. -/
theorem c2_code_bug_late_capture_mutates :
    finish_session st1.1 9 30 = some app2
    ∧ app2.active = false ∧ app2.sess = none
    ∧ fsLookup app2.fs (finishedFileName 1 9 0 9 30 12 10 2025) = some []
    ∧ totLines app2.fs = 0 ∧ app2.fs.length = 1
    ∧ totLines (adjFs (add_item app2.fs s1 "A")) = 1
    ∧ (adjFs (add_item app2.fs s1 "A")).length = 2
    ∧ ((fsLookup (adjFs (add_item app2.fs s1 "A"))
          (startFileName 1 9 0 12 10 2025)).getD []).length = 1
    ∧ dlookup (adjSess (add_item app2.fs s1 "A")).qtys "A" = some 1 := by
  decide

/-! ## Claim C1 — ledger totals versus the quantity map -/

/-- Both branches of a quantity mutation are a pair of file system and
session. -/
lemma stepOp_inc_eq (p : FSt × Sess) (n : String) :
    stepOp p (.inc n) = (adjFs (add_item p.1 p.2 n), adjSess (add_item p.1 p.2 n)) := by
  cases h : add_item p.1 p.2 n <;> simp [stepOp, adjFs, adjSess, h]

lemma stepOp_dec_eq (p : FSt × Sess) (n : String) :
    stepOp p (.dec n) = (adjFs (sub_item p.1 p.2 n), adjSess (sub_item p.1 p.2 n)) := by
  cases h : sub_item p.1 p.2 n <;> simp [stepOp, adjFs, adjSess, h]

/-- A sensor run either leaves the state alone or performs exactly the
`add_item` mutation. -/
lemma cap_state_eq (busy frameOk : Bool) (n : String) (fs : FSt) (s : Sess) :
    (capture_and_predict busy frameOk n fs s).1 = (fs, s)
    ∨ (capture_and_predict busy frameOk n fs s).1
        = (adjFs (add_item fs s n), adjSess (add_item fs s n)) := by
  unfold capture_and_predict
  by_cases hb : busy
  · left
    simp [hb]
  · by_cases hf : frameOk = false
    · left
      simp [hb, hf]
    · by_cases hu : n = UNKNOWN_NAME
      · left
        simp [hb, hf, hu]
      · right
        cases h : add_item fs s n <;> simp [hb, hf, hu, adjFs, adjSess, h]

/-- The mutation `add_item` preserves the menu snapshot, the bill file name, and the
well-formedness of every row of the bill file, appending only
well-formed rows. -/
lemma add_item_goodLines (menu : List (String × ℚ)) (bill : List Char)
    (fs : FSt) (s : Sess) (n : String) (hm : s.menu = menu)
    (hb : s.billName = bill)
    (hl : ∀ l ∈ (fsLookup fs bill).getD [], goodLine menu l) :
    (adjSess (add_item fs s n)).menu = menu
    ∧ (adjSess (add_item fs s n)).billName = bill
    ∧ ∀ l ∈ (fsLookup (adjFs (add_item fs s n)) bill).getD [], goodLine menu l := by
  unfold add_item
  cases hq : dlookup s.qtys n with
  | none => exact ⟨hm, hb, hl⟩
  | some q =>
    cases hp : dlookup s.menu n with
    | none => exact ⟨hm, hb, hl⟩
    | some p =>
      refine ⟨hm, hb, ?_⟩
      simp only [adjFs, append_bill, Nat.succ_ne_zero, if_false, hb]
      rw [fsLookup_fsAppendRow_self]
      simp only [Option.getD_some]
      intro l hl2
      rcases List.mem_append.mp hl2 with h | h
      · exact hl l h
      · rcases List.mem_singleton.mp h with rfl
        exact ⟨rfl, Nat.succ_le_succ (Nat.zero_le q), by rw [← hm]; exact hp⟩

/-- The mutation `sub_item` preserves the same invariant. -/
lemma sub_item_goodLines (menu : List (String × ℚ)) (bill : List Char)
    (fs : FSt) (s : Sess) (n : String) (hm : s.menu = menu)
    (hb : s.billName = bill)
    (hl : ∀ l ∈ (fsLookup fs bill).getD [], goodLine menu l) :
    (adjSess (sub_item fs s n)).menu = menu
    ∧ (adjSess (sub_item fs s n)).billName = bill
    ∧ ∀ l ∈ (fsLookup (adjFs (sub_item fs s n)) bill).getD [], goodLine menu l := by
  unfold sub_item
  cases hq : dlookup s.qtys n with
  | none => exact ⟨hm, hb, hl⟩
  | some q =>
    cases q with
    | zero => exact ⟨hm, hb, hl⟩
    | succ k =>
      cases hp : dlookup s.menu n with
      | none => exact ⟨hm, hb, hl⟩
      | some p =>
        refine ⟨hm, hb, ?_⟩
        cases k with
        | zero => simpa [adjFs, append_bill] using hl
        | succ j =>
          simp only [adjFs, append_bill, Nat.succ_ne_zero, if_false, hb]
          rw [fsLookup_fsAppendRow_self]
          simp only [Option.getD_some]
          intro l hl2
          rcases List.mem_append.mp hl2 with h | h
          · exact hl l h
          · rcases List.mem_singleton.mp h with rfl
            exact ⟨rfl, Nat.succ_le_succ (Nat.zero_le j), by rw [← hm]; exact hp⟩

/-- One operation of a session run preserves the ledger invariant. -/
lemma stepOp_goodLines (menu : List (String × ℚ)) (bill : List Char)
    (p : FSt × Sess) (op : Op) (hm : p.2.menu = menu)
    (hb : p.2.billName = bill)
    (hl : ∀ l ∈ (fsLookup p.1 bill).getD [], goodLine menu l) :
    (stepOp p op).2.menu = menu ∧ (stepOp p op).2.billName = bill
    ∧ ∀ l ∈ (fsLookup (stepOp p op).1 bill).getD [], goodLine menu l := by
  cases op with
  | inc n =>
    rw [stepOp_inc_eq]
    exact add_item_goodLines menu bill p.1 p.2 n hm hb hl
  | dec n =>
    rw [stepOp_dec_eq]
    exact sub_item_goodLines menu bill p.1 p.2 n hm hb hl
  | cap busy frameOk n =>
    have hs : stepOp p (.cap busy frameOk n)
        = (capture_and_predict busy frameOk n p.1 p.2).1 := rfl
    rw [hs]
    rcases cap_state_eq busy frameOk n p.1 p.2 with h | h
    · rw [h]
      exact ⟨hm, hb, hl⟩
    · rw [h]
      exact add_item_goodLines menu bill p.1 p.2 n hm hb hl

/-- A whole run of operations preserves the ledger invariant. -/
lemma runOps_goodLines (menu : List (String × ℚ)) (bill : List Char) :
    ∀ (ops : List Op) (p : FSt × Sess), p.2.menu = menu → p.2.billName = bill →
      (∀ l ∈ (fsLookup p.1 bill).getD [], goodLine menu l) →
      (runOps p ops).2.menu = menu ∧ (runOps p ops).2.billName = bill
      ∧ ∀ l ∈ (fsLookup (runOps p ops).1 bill).getD [], goodLine menu l := by
  intro ops
  induction ops with
  | nil => exact fun p hm hb hl => ⟨hm, hb, hl⟩
  | cons op rest ih =>
    intro p hm hb hl
    have hstep := stepOp_goodLines menu bill p op hm hb hl
    have : runOps p (op :: rest) = runOps (stepOp p op) rest := by
      simp [runOps, List.foldl]
    rw [this]
    exact ih (stepOp p op) hstep.1 hstep.2.1 hstep.2.2

/-- The bill file a fresh session opens is empty. -/
lemma start_session_fs_lookup (app : App) (menu : List (String × ℚ))
    (t h m d mo y : Nat) (hne : menu ≠ []) :
    fsLookup (start_session app menu t h m d mo y).1.fs
      (startFileName t h m d mo y) = some [] := by
  unfold start_session
  simp only [hne, if_false]
  rw [fsRename, fsLookup_fsSet_self, fsLookup_fsSet_self]

/-- What the session record of a fresh session is. -/
lemma start_session_sess (app : App) (menu : List (String × ℚ))
    (t h m d mo y : Nat) (hne : menu ≠ []) :
    (start_session app menu t h m d mo y).1.sess
      = some ⟨menu, menu.map (fun pr => (pr.1, 0)),
              startFileName t h m d mo y, timeChars h m⟩ := by
  unfold start_session
  simp [hne]

/-- C1 counterexample: on the session `st1` (menu `{A: 10}`), after the
operation sequence `[inc "A", inc "A"]` the sum of the `total_line`
column of the bill file (`bill_total`) is `10 + 20 = 30`, because each
appended row carries the *cumulative* total, while
`Σ quantities[n] * unitPrice[n]` (`stateTotal`) is `2 * 10 = 20`.  The
claimed exact equality after each operation is false already at the
second operation. -/
theorem c1_counterexample :
    bill_total (runOps (st1.1.fs, s1) [.inc "A", .inc "A"]).1 s1.billName = 30
    ∧ stateTotal (runOps (st1.1.fs, s1) [.inc "A", .inc "A"]).2 = 20
    ∧ bill_total (runOps (st1.1.fs, s1) [.inc "A", .inc "A"]).1 s1.billName
        ≠ stateTotal (runOps (st1.1.fs, s1) [.inc "A", .inc "A"]).2 := by
  norm_num [st1, s1, app0, menuA, start_session, bill_total, stateTotal,
    runOps, stepOp, add_item, sub_item, capture_and_predict, append_bill,
    fsAppendRow, fsSet, fsRemove, fsRename, fsLookup, dlookup, dupdate,
    startFileName, startStem, tmpName, natChars, natCharsF, timeChars,
    dateChars, two, four, digit]

/-- C1 amended: for every active session and every sequence of
manual-adjust and capture-result operations on it, after each operation
every ledger row appended so far is a well-formed cumulative snapshot:
its `total_line` equals its recorded cumulative quantity (at least 1)
times the item's unit price in the menu snapshot.  (The aggregate
equality of the original claim fails — summing cumulative rows
over-counts, see the counterexample — only this per-row form holds.) -/
theorem c1_amended_ledger_lines (app : App) (menu : List (String × ℚ))
    (t h m d mo y : Nat) (ops : List Op) (s0 : Sess) (hne : menu ≠ [])
    (hs : (start_session app menu t h m d mo y).1.sess = some s0) :
    (runOps ((start_session app menu t h m d mo y).1.fs, s0) ops).2.billName
        = startFileName t h m d mo y
    ∧ ∀ l ∈ (fsLookup (runOps ((start_session app menu t h m d mo y).1.fs, s0) ops).1
               (startFileName t h m d mo y)).getD [],
        goodLine menu l := by
  rw [start_session_sess app menu t h m d mo y hne] at hs
  have hs0 : s0 = ⟨menu, menu.map (fun pr => (pr.1, 0)),
      startFileName t h m d mo y, timeChars h m⟩ := (Option.some.inj hs).symm
  have hinv := runOps_goodLines menu (startFileName t h m d mo y) ops
    ((start_session app menu t h m d mo y).1.fs, s0)
    (by rw [hs0]) (by rw [hs0])
    (by
      rw [start_session_fs_lookup app menu t h m d mo y hne]
      intro l hl
      simp at hl)
  exact ⟨hinv.2.1, hinv.2.2⟩

/-- Witness for C1: the concrete `st1` session with a manual increment
followed by a sensor-classified result. -/
theorem c1_witness :
    menuA ≠ []
    ∧ (start_session app0 menuA 1 9 0 12 10 2025).1.sess = some s1
    ∧ ((runOps ((start_session app0 menuA 1 9 0 12 10 2025).1.fs, s1)
          [.inc "A", .cap false true "A"]).2.billName
          = startFileName 1 9 0 12 10 2025
      ∧ ∀ l ∈ (fsLookup (runOps ((start_session app0 menuA 1 9 0 12 10 2025).1.fs, s1)
                  [.inc "A", .cap false true "A"]).1
                (startFileName 1 9 0 12 10 2025)).getD [],
          goodLine menuA l) :=
  ⟨by decide, by decide,
    c1_amended_ledger_lines app0 menuA 1 9 0 12 10 2025
      [.inc "A", .cap false true "A"] s1 (by decide) (by decide)⟩

/-! ## Claim C8 — `startSession` and the empty menu -/

/-- Looking up any menu item in the freshly zeroed quantity map gives 0. -/
lemma dlookup_zeros (menu : List (String × ℚ)) (k : String)
    (hk : k ∈ menu.map Prod.fst) :
    dlookup (menu.map (fun pr => (pr.1, 0))) k = some 0 := by
  induction menu with
  | nil => simp at hk
  | cons hd tl ih =>
    rcases List.mem_map.mp hk with ⟨pr, hpr, rfl⟩
    rcases List.mem_cons.mp hpr with rfl | h1
    · simp [dlookup]
    · by_cases h : hd.1 = pr.1
      · simp [dlookup, h]
      · simpa [dlookup, h] using ih (List.mem_map.mpr ⟨pr, h1, rfl⟩)

/-- C8: `start_session` with an empty menu shows the "Empty menu"
warning and changes nothing — no bill file is created and the state
(including the inactive flag) is exactly as before; with a non-empty
menu the session becomes active, its bill file is a fresh empty ledger
whose name carries the table id, start time and date, its menu snapshot
is the loaded menu, and every menu item's quantity starts at zero. -/
theorem c8_start_session (app : App) (menu : List (String × ℚ))
    (t h m d mo y : Nat) :
    (menu = [] → start_session app menu t h m d mo y = (app, .emptyMenuWarn))
    ∧ (menu ≠ [] →
        (start_session app menu t h m d mo y).2 = .started
        ∧ (start_session app menu t h m d mo y).1.active = true
        ∧ ∃ s, (start_session app menu t h m d mo y).1.sess = some s
            ∧ s.billName = startFileName t h m d mo y
            ∧ s.startStr = timeChars h m
            ∧ s.menu = menu
            ∧ (∀ pr ∈ menu, dlookup s.qtys pr.1 = some 0)
            ∧ fsLookup (start_session app menu t h m d mo y).1.fs s.billName
                = some []) := by
  constructor
  · intro he
    simp [start_session, he]
  · intro hne
    refine ⟨by simp [start_session, hne], by simp [start_session, hne],
      ⟨menu, menu.map (fun pr => (pr.1, 0)), startFileName t h m d mo y,
        timeChars h m⟩,
      start_session_sess app menu t h m d mo y hne, rfl, rfl, rfl, ?_, ?_⟩
    · intro pr hpr
      exact dlookup_zeros menu pr.1 (List.mem_map.mpr ⟨pr, hpr, rfl⟩)
    · exact start_session_fs_lookup app menu t h m d mo y hne

/-- Witness for C8, applying the theorem both to the empty menu and to
the concrete non-empty `menuA`. -/
theorem c8_witness :
    start_session app0 [] 1 9 0 12 10 2025 = (app0, .emptyMenuWarn)
    ∧ ((start_session app0 menuA 1 9 0 12 10 2025).2 = .started
      ∧ (start_session app0 menuA 1 9 0 12 10 2025).1.active = true
      ∧ ∃ s, (start_session app0 menuA 1 9 0 12 10 2025).1.sess = some s
          ∧ s.billName = startFileName 1 9 0 12 10 2025
          ∧ s.startStr = timeChars 9 0
          ∧ s.menu = menuA
          ∧ (∀ pr ∈ menuA, dlookup s.qtys pr.1 = some 0)
          ∧ fsLookup (start_session app0 menuA 1 9 0 12 10 2025).1.fs s.billName
              = some []) :=
  ⟨(c8_start_session app0 [] 1 9 0 12 10 2025).1 rfl,
   (c8_start_session app0 menuA 1 9 0 12 10 2025).2 (by decide)⟩

/-! ## Claim C10 — saving menu prices truncates them -/

/-- Python `int()` of an integral rational is its integer. -/
lemma pytrunc_intCast (k : ℤ) : pytrunc ((k : ℤ) : ℚ) = k := by
  unfold pytrunc
  rw [Rat.num_intCast, Rat.den_intCast]
  exact Int.tdiv_one k

/-- Lookup skips a block it cannot hit. -/
lemma dlookup_append {α : Type} (a b : List (String × α)) (k : String)
    (h : dlookup a k = none) : dlookup (a ++ b) k = dlookup b k := by
  induction a with
  | nil => simp
  | cons hd tl ih =>
    by_cases h2 : hd.1 = k
    · simp [dlookup, h2] at h
    · have h3 : dlookup tl k = none := by simpa [dlookup, h2] using h
      simpa [dlookup, h2] using ih h3

/-- Inserting a fresh key appends it at the end. -/
lemma dinsert_fresh {α : Type} (d : List (String × α)) (k : String) (v : α)
    (h : dlookup d k = none) : dinsert d k v = d ++ [(k, v)] := by
  simp [dinsert, h]

/-- The names of the rows `save_menu_rows` writes are the input names,
and reading its name/price columns back gives the truncated prices. -/
lemma save_menu_rows_map (rows : List (String × ℚ)) :
    (save_menu_rows rows).map (fun r => (r.name, ((r.price : ℤ) : ℚ)))
      = rows.map (fun pr => (pr.1, ((pytrunc pr.2 : ℤ) : ℚ))) := by
  unfold save_menu_rows
  rw [List.map_map]
  have hz : ((List.range rows.length).zip rows).map Prod.snd = rows :=
    List.map_snd_zip _ _ (by simp)
  calc ((List.range rows.length).zip rows).map
        ((fun r : MenuRow => (r.name, ((r.price : ℤ) : ℚ)))
          ∘ fun p => ⟨p.1 + 1, p.2.1, pytrunc p.2.2⟩)
      = ((List.range rows.length).zip rows).map
          ((fun pr : String × ℚ => (pr.1, ((pytrunc pr.2 : ℤ) : ℚ))) ∘ Prod.snd) := rfl
    _ = rows.map (fun pr => (pr.1, ((pytrunc pr.2 : ℤ) : ℚ))) := by
        rw [← List.map_map, hz]

/-- Same, for the name column alone. -/
lemma save_menu_rows_names (rows : List (String × ℚ)) :
    (save_menu_rows rows).map MenuRow.name = rows.map Prod.fst := by
  unfold save_menu_rows
  rw [List.map_map]
  have hz : ((List.range rows.length).zip rows).map Prod.snd = rows :=
    List.map_snd_zip _ _ (by simp)
  calc ((List.range rows.length).zip rows).map
        (MenuRow.name ∘ fun p => ⟨p.1 + 1, p.2.1, pytrunc p.2.2⟩)
      = ((List.range rows.length).zip rows).map (Prod.fst ∘ Prod.snd) := rfl
    _ = rows.map Prod.fst := by rw [← List.map_map, hz]

/-- Folding `dinsert` over rows with pairwise-distinct fresh names just
appends their name/price pairs. -/
lemma load_menu_fold (file : List MenuRow) :
    ∀ (acc : List (String × ℚ)),
      (∀ r ∈ file, dlookup acc r.name = none) →
      (file.map MenuRow.name).Nodup →
      file.foldl (fun menu r => dinsert menu r.name ((r.price : ℤ) : ℚ)) acc
        = acc ++ file.map (fun r => (r.name, ((r.price : ℤ) : ℚ))) := by
  induction file with
  | nil => intro acc _ _; simp
  | cons r rest ih =>
    intro acc hfresh hnodup
    have hr : dlookup acc r.name = none := hfresh r (List.mem_cons_self r rest)
    have hstep : dinsert acc r.name ((r.price : ℤ) : ℚ)
        = acc ++ [(r.name, ((r.price : ℤ) : ℚ))] := dinsert_fresh acc _ _ hr
    rw [List.map_cons] at hnodup
    have hnames : r.name ∉ rest.map MenuRow.name := (List.nodup_cons.mp hnodup).1
    have hfresh2 : ∀ r2 ∈ rest,
        dlookup (acc ++ [(r.name, ((r.price : ℤ) : ℚ))]) r2.name = none := by
      intro r2 hr2
      rw [dlookup_append _ _ _ (hfresh r2 (List.mem_cons_of_mem r hr2))]
      have hne : r.name ≠ r2.name := by
        intro hc
        exact hnames (hc ▸ List.mem_map.mpr ⟨r2, hr2, rfl⟩)
      simp [dlookup, hne]
    have hnodup2 : (rest.map MenuRow.name).Nodup := (List.nodup_cons.mp hnodup).2
    calc (r :: rest).foldl (fun menu r2 => dinsert menu r2.name ((r2.price : ℤ) : ℚ)) acc
        = rest.foldl (fun menu r2 => dinsert menu r2.name ((r2.price : ℤ) : ℚ))
            (acc ++ [(r.name, ((r.price : ℤ) : ℚ))]) := by
          simp [List.foldl, hstep]
      _ = acc ++ [(r.name, ((r.price : ℤ) : ℚ))]
            ++ rest.map (fun r2 => (r2.name, ((r2.price : ℤ) : ℚ))) :=
          ih _ hfresh2 hnodup2
      _ = acc ++ (r :: rest).map (fun r2 => (r2.name, ((r2.price : ℤ) : ℚ))) := by
          simp

/-- Looking a member's name up in a mapped association list built from
rows with pairwise-distinct names finds that member's value. -/
lemma dlookup_map_of_nodup (rows : List (String × ℚ)) (g : String × ℚ → ℚ)
    (hnodup : (rows.map Prod.fst).Nodup) :
    ∀ pr ∈ rows, dlookup (rows.map (fun pr2 => (pr2.1, g pr2))) pr.1 = some (g pr) := by
  induction rows with
  | nil => intro pr hpr; simp at hpr
  | cons hd tl ih =>
    intro pr hpr
    rcases List.mem_cons.mp hpr with rfl | h1
    · simp [dlookup]
    · have hne : hd.1 ≠ pr.1 := by
        intro hc
        exact (List.nodup_cons.mp hnodup).1 (hc ▸ List.mem_map.mpr ⟨pr, h1, rfl⟩)
      simpa [dlookup, hne] using ih (List.nodup_cons.mp hnodup).2 pr h1

/-- C10: `save_menu_rows` writes every price as `int(price)` — its
truncation toward zero — so after a save-then-load round trip every
item's price is the truncated integer value of its original price, and
the round trip preserves the price exactly iff the original price was a
whole number. -/
theorem c10_menu_round_trip (rows : List (String × ℚ))
    (hnodup : (rows.map Prod.fst).Nodup) :
    ∀ pr ∈ rows,
      dlookup (load_menu (save_menu_rows rows)) pr.1 = some ((pytrunc pr.2 : ℤ) : ℚ)
      ∧ (((pytrunc pr.2 : ℤ) : ℚ) = pr.2 ↔ ∃ k : ℤ, pr.2 = ((k : ℤ) : ℚ)) := by
  intro pr hpr
  constructor
  · have hload : load_menu (save_menu_rows rows)
        = rows.map (fun pr2 => (pr2.1, ((pytrunc pr2.2 : ℤ) : ℚ))) := by
      unfold load_menu
      rw [load_menu_fold (save_menu_rows rows) [] (by intro r _; rfl)
        (by rw [save_menu_rows_names]; exact hnodup)]
      rw [List.nil_append, save_menu_rows_map]
    rw [hload]
    exact dlookup_map_of_nodup rows (fun pr2 => ((pytrunc pr2.2 : ℤ) : ℚ)) hnodup pr hpr
  · constructor
    · intro h
      exact ⟨pytrunc pr.2, h.symm⟩
    · rintro ⟨k, hk⟩
      rw [hk, pytrunc_intCast]

/-- Witness for C10: a fractional price 7/2 truncates to 3 (not
preserved), an integral price 3 is preserved. -/
theorem c10_witness :
    ((([("A", (7 : ℚ) / 2), ("B", 3)] : List (String × ℚ)).map Prod.fst).Nodup)
    ∧ ∀ pr ∈ ([("A", (7 : ℚ) / 2), ("B", 3)] : List (String × ℚ)),
        dlookup (load_menu (save_menu_rows [("A", (7 : ℚ) / 2), ("B", 3)])) pr.1
          = some ((pytrunc pr.2 : ℤ) : ℚ)
        ∧ (((pytrunc pr.2 : ℤ) : ℚ) = pr.2 ↔ ∃ k : ℤ, pr.2 = ((k : ℤ) : ℚ)) :=
  ⟨by decide, c10_menu_round_trip [("A", (7 : ℚ) / 2), ("B", 3)] (by decide)⟩

/-! ## Claim C9 — bill file names round-trip through `parse_bill_name`

First: `natChars` is fuel-invariant and renders decimal digits. -/

lemma natCharsF_eq_of_lt : ∀ (n f g : Nat), n < f → n < g →
    natCharsF f n = natCharsF g n := by
  intro n
  induction n using Nat.strong_induction_on with
  | _ n ih =>
    intro f g hf hg
    match f, g with
    | f2 + 1, g2 + 1 =>
      by_cases h : n < 10
      · simp [natCharsF, h]
      · have hn : 0 < n := by omega
        have hd : n / 10 < n := Nat.div_lt_self hn (by omega)
        have hrec := ih (n / 10) hd f2 g2 (by omega) (by omega)
        simp [natCharsF, h, hrec]

/-- The defining recursion of `natChars`, freed from its fuel. -/
lemma natChars_eq (n : Nat) :
    natChars n = if n < 10 then [digit n]
                 else natChars (n / 10) ++ [digit (n % 10)] := by
  by_cases h : n < 10
  · simp [natChars, natCharsF, h]
  · have hn : 0 < n := by omega
    have hd : n / 10 < n := Nat.div_lt_self hn (by omega)
    have : natCharsF n (n / 10) = natCharsF (n / 10 + 1) (n / 10) :=
      natCharsF_eq_of_lt (n / 10) n (n / 10 + 1) hd (by omega)
    simp [natChars, natCharsF, h, this]

lemma natChars_ne_nil (n : Nat) : natChars n ≠ [] := by
  rw [natChars_eq]
  by_cases h : n < 10 <;> simp [h]

lemma natChars_digits (n : Nat) : ∀ c ∈ natChars n, c.isDigit = true := by
  induction n using Nat.strong_induction_on with
  | _ n ih =>
    rw [natChars_eq]
    by_cases h : n < 10
    · simp only [h, if_true, List.mem_singleton]
      intro c hc
      subst hc
      exact digit_isDigit n h
    · have hn : 0 < n := by omega
      have hd : n / 10 < n := Nat.div_lt_self hn (by omega)
      simp only [h, if_false, List.mem_append, List.mem_singleton]
      intro c hc
      rcases hc with hc | hc
      · exact ih (n / 10) hd c hc
      · subst hc
        exact digit_isDigit (n % 10) (Nat.mod_lt n (by omega))

/-- The function `leadDigits` consumes exactly an all-digit block that is followed by
a non-digit. -/
lemma leadDigits_append (xs : List Char) (hxs : ∀ c ∈ xs, c.isDigit = true)
    (y : Char) (hy : y.isDigit = false) (r : List Char) :
    leadDigits (xs ++ y :: r) = (xs, y :: r) := by
  induction xs with
  | nil => simp [leadDigits, hy]
  | cons c cs ih =>
    have hc : c.isDigit = true := hxs c (List.mem_cons_self c cs)
    have ihr := ih (fun c2 hc2 => hxs c2 (List.mem_cons_of_mem c hc2))
    simp [leadDigits, hc, ihr]

/-- Folding the decimal-accumulator over the digits of `n` starting from
`a` yields `a * 10 ^ (number of digits) + n`. -/
lemma foldl_natChars (n : Nat) : ∀ a : Nat,
    List.foldl (fun a2 c => 10 * a2 + (c.toNat - 48)) a (natChars n)
      = a * 10 ^ (natChars n).length + n := by
  induction n using Nat.strong_induction_on with
  | _ n ih =>
    intro a
    rw [natChars_eq]
    by_cases h : n < 10
    · simp only [h, if_true, List.foldl_cons, List.foldl_nil, List.length_singleton]
      rw [digit_toNat n h]
      omega
    · have hn : 0 < n := by omega
      have hd : n / 10 < n := Nat.div_lt_self hn (by omega)
      simp only [h, if_false]
      rw [List.foldl_append, ih (n / 10) hd a]
      simp only [List.foldl_cons, List.foldl_nil, List.length_append,
        List.length_singleton]
      rw [digit_toNat (n % 10) (Nat.mod_lt n (by omega))]
      have hmod := Nat.div_add_mod n 10
      have hpow : a * 10 ^ ((natChars (n / 10)).length + 1)
          = a * 10 ^ (natChars (n / 10)).length * 10 := by ring
      rw [hpow]
      omega

lemma digitsVal_natChars (n : Nat) : digitsVal (natChars n) = n := by
  unfold digitsVal
  rw [foldl_natChars n 0]
  omega

/-- Pattern `(\d+)_` on `str(n)` followed by an underscore recovers `n`. -/
lemma parseNatU_natChars (n : Nat) (r : List Char) :
    parseNatU (natChars n ++ '_' :: r) = some (n, r) := by
  unfold parseNatU
  rw [leadDigits_append (natChars n) (natChars_digits n) '_' (by decide) r]
  rcases hx : natChars n with _ | ⟨c, cs⟩
  · exact absurd hx (natChars_ne_nil n)
  · have : digitsVal (c :: cs) = n := by
      rw [← hx]
      exact digitsVal_natChars n
    simp [this]

/-- Pattern `(\d{2}-\d{2})_` accepts a two-digit-padded time followed by an
underscore and captures exactly the time characters. -/
lemma parseTime2U_timeChars (h m : Nat) (hh : h < 100) (hm : m < 100)
    (r : List Char) :
    parseTime2U (timeChars h m ++ '_' :: r) = some (timeChars h m, r) := by
  have h1 : (digit (h / 10)).isDigit = true := digit_isDigit _ (by omega)
  have h2 : (digit (h % 10)).isDigit = true := digit_isDigit _ (by omega)
  have h3 : (digit (m / 10)).isDigit = true := digit_isDigit _ (by omega)
  have h4 : (digit (m % 10)).isDigit = true := digit_isDigit _ (by omega)
  simp [timeChars, two, parseTime2U, h1, h2, h3, h4]

/-- The two-digit-hour end-time branch rejects a date (its sixth
character is `-`, not `_`). -/
lemma parseTime2U_dateChars (d mo y : Nat) :
    parseTime2U (dateChars d mo y) = none := by
  simp [dateChars, two, four, parseTime2U]

/-- The one-digit-hour end-time branch rejects a date (its second
character is a digit, not `-`). -/
lemma parseTime1U_dateChars (d mo y : Nat) (hd : d < 100) :
    parseTime1U (dateChars d mo y) = none := by
  have h2 : ¬(digit (d % 10) = '-') := digit_ne_dash _ (by omega)
  simp [dateChars, two, four, parseTime1U, h2]

/-- Two digits from a two-digit-padded block. -/
lemma takeDigits_two (n : Nat) (hn : n < 100) (r : List Char) :
    takeDigits 2 (two n ++ r) = some (two n, r) := by
  have h1 : (digit (n / 10)).isDigit = true := digit_isDigit _ (by omega)
  have h2 : (digit (n % 10)).isDigit = true := digit_isDigit _ (by omega)
  simp [two, takeDigits, h1, h2]

/-- Four digits from a four-digit-padded block. -/
lemma takeDigits_four (y : Nat) (hy : y < 10000) (r : List Char) :
    takeDigits 4 (four y ++ r) = some (four y, r) := by
  have h1 : (digit (y / 1000)).isDigit = true := digit_isDigit _ (by omega)
  have h2 : (digit (y / 100 % 10)).isDigit = true := digit_isDigit _ (by omega)
  have h3 : (digit (y / 10 % 10)).isDigit = true := digit_isDigit _ (by omega)
  have h4 : (digit (y % 10)).isDigit = true := digit_isDigit _ (by omega)
  simp [four, takeDigits, h1, h2, h3, h4]

/-- The greedy date alternative `\d{2}-\d{2}-\d{4}` consumes exactly a
padded `dd-mm-yyyy` block. -/
lemma parseDateW22_dateChars (d mo y : Nat) (hd : d < 100) (hmo : mo < 100)
    (hy : y < 10000) :
    parseDateW 2 2 (dateChars d mo y) = some (dateChars d mo y) := by
  unfold parseDateW
  have e1 : dateChars d mo y = two d ++ '-' :: (two mo ++ '-' :: four y) := by
    simp [dateChars]
  rw [e1, takeDigits_two d hd _]
  simp only []
  rw [takeDigits_two mo hmo _]
  simp only []
  have e2 : takeDigits 4 (four y) = some (four y, []) := by
    have := takeDigits_four y hy []
    simpa using this
  rw [e2]
  simp

lemma parseDate_dateChars (d mo y : Nat) (hd : d < 100) (hmo : mo < 100)
    (hy : y < 10000) :
    parseDate (dateChars d mo y) = some (dateChars d mo y) := by
  unfold parseDate
  rw [parseDateW22_dateChars d mo y hd hmo hy]

/-- The optional end-time group is skipped when only a date remains. -/
lemma parseAfterStart_dateOnly (d mo y : Nat) (hd : d < 100) (hmo : mo < 100)
    (hy : y < 10000) :
    parseAfterStart (dateChars d mo y) = some (none, dateChars d mo y) := by
  unfold parseAfterStart
  rw [parseTime2U_dateChars d mo y]
  unfold parseAfterStart.parseAfterStartNo2
  rw [parseTime1U_dateChars d mo y hd, parseDate_dateChars d mo y hd hmo hy]

/-- The optional end-time group captures a two-digit-padded end time
when one sits between the start time and the date. -/
lemma parseAfterStart_endDate (eh em d mo y : Nat) (heh : eh < 100)
    (hem : em < 100) (hd : d < 100) (hmo : mo < 100) (hy : y < 10000) :
    parseAfterStart (timeChars eh em ++ '_' :: dateChars d mo y)
      = some (some (timeChars eh em), dateChars d mo y) := by
  unfold parseAfterStart
  rw [parseTime2U_timeChars eh em heh hem _]
  simp only []
  rw [parseDate_dateChars d mo y hd hmo hy]

/-! Character classes of the name components. -/

lemma mem_timeChars {c : Char} {h m : Nat} (hh : h < 100) (hm : m < 100)
    (hc : c ∈ timeChars h m) : c.isDigit = true ∨ c = '-' := by
  simp [timeChars, two] at hc
  rcases hc with rfl | rfl | rfl | rfl | rfl
  · exact Or.inl (digit_isDigit _ (by omega))
  · exact Or.inl (digit_isDigit _ (by omega))
  · exact Or.inr rfl
  · exact Or.inl (digit_isDigit _ (by omega))
  · exact Or.inl (digit_isDigit _ (by omega))

lemma mem_dateChars {c : Char} {d mo y : Nat} (hd : d < 100) (hmo : mo < 100)
    (hy : y < 10000) (hc : c ∈ dateChars d mo y) : c.isDigit = true ∨ c = '-' := by
  simp [dateChars, two, four] at hc
  rcases hc with rfl | rfl | rfl | rfl | rfl | rfl | rfl | rfl | rfl | rfl
  · exact Or.inl (digit_isDigit _ (by omega))
  · exact Or.inl (digit_isDigit _ (by omega))
  · exact Or.inr rfl
  · exact Or.inl (digit_isDigit _ (by omega))
  · exact Or.inl (digit_isDigit _ (by omega))
  · exact Or.inr rfl
  · exact Or.inl (digit_isDigit _ (by omega))
  · exact Or.inl (digit_isDigit _ (by omega))
  · exact Or.inl (digit_isDigit _ (by omega))
  · exact Or.inl (digit_isDigit _ (by omega))

lemma und_notin_natChars (t : Nat) : '_' ∉ natChars t := by
  intro hc
  have := natChars_digits t '_' hc
  simp at this

lemma und_notin_timeChars {h m : Nat} (hh : h < 100) (hm : m < 100) :
    '_' ∉ timeChars h m := by
  intro hc
  rcases mem_timeChars hh hm hc with h1 | h1
  · simp at h1
  · exact absurd h1 (by decide)

lemma und_notin_dateChars {d mo y : Nat} (hd : d < 100) (hmo : mo < 100)
    (hy : y < 10000) : '_' ∉ dateChars d mo y := by
  intro hc
  rcases mem_dateChars hd hmo hy hc with h1 | h1
  · simp at h1
  · exact absurd h1 (by decide)

lemma dot_notin_natChars (t : Nat) : '.' ∉ natChars t := by
  intro hc
  have := natChars_digits t '.' hc
  simp at this

lemma dot_notin_timeChars {h m : Nat} (hh : h < 100) (hm : m < 100) :
    '.' ∉ timeChars h m := by
  intro hc
  rcases mem_timeChars hh hm hc with h1 | h1
  · simp at h1
  · exact absurd h1 (by decide)

lemma dot_notin_dateChars {d mo y : Nat} (hd : d < 100) (hmo : mo < 100)
    (hy : y < 10000) : '.' ∉ dateChars d mo y := by
  intro hc
  rcases mem_dateChars hd hmo hy hc with h1 | h1
  · simp at h1
  · exact absurd h1 (by decide)

/-! `str.split("_")`, `"_".join`, `Path.stem` on the generated names. -/

lemma splitUnd_no_und (a : List Char) (ha : '_' ∉ a) : splitUnd a = [a] := by
  induction a with
  | nil => simp [splitUnd]
  | cons c cs ih =>
    have hc : ¬(c = '_') := fun h => ha (h ▸ List.mem_cons_self c cs)
    have ihr := ih (fun h => ha (List.mem_cons_of_mem c h))
    simp [splitUnd, hc, ihr]

lemma splitUnd_ne_nil (b : List Char) : splitUnd b ≠ [] := by
  cases b with
  | nil => simp [splitUnd]
  | cons c cs =>
    simp only [splitUnd]
    by_cases h : c = '_'
    · simp [h]
    · simp only [h, if_false]
      rcases hx : splitUnd cs with _ | ⟨p, ps⟩ <;> simp

lemma splitUnd_append (a : List Char) (ha : '_' ∉ a) (b : List Char) :
    splitUnd (a ++ '_' :: b) = a :: splitUnd b := by
  induction a with
  | nil => simp [splitUnd]
  | cons c cs ih =>
    have hc : ¬(c = '_') := fun h => ha (h ▸ List.mem_cons_self c cs)
    have ihr := ih (fun h => ha (List.mem_cons_of_mem c h))
    rcases hx : splitUnd b with _ | ⟨p, ps⟩
    · exact absurd hx (splitUnd_ne_nil b)
    · simp [splitUnd, hc, ihr, hx]

lemma splitAtLastDot_no_dot (a : List Char) (ha : '.' ∉ a) :
    splitAtLastDot a = none := by
  induction a with
  | nil => rfl
  | cons c cs ih =>
    have hc : ¬(c = '.') := fun h => ha (h ▸ List.mem_cons_self c cs)
    have ihr := ih (fun h => ha (List.mem_cons_of_mem c h))
    simp [splitAtLastDot, ihr, hc]

lemma splitAtLastDot_append (s : List Char) (hs : '.' ∉ s) (e : List Char)
    (he : '.' ∉ e) : splitAtLastDot (s ++ '.' :: e) = some (s, e) := by
  induction s with
  | nil => simp [splitAtLastDot, splitAtLastDot_no_dot e he]
  | cons c cs ih =>
    have ihr := ih (fun h => hs (List.mem_cons_of_mem c h))
    simp [splitAtLastDot, ihr]

lemma stemOf_csv (s : List Char) (hs : '.' ∉ s) :
    stemOf (s ++ ".csv".toList) = s := by
  have : s ++ ".csv".toList = s ++ '.' :: "csv".toList := rfl
  rw [this]
  unfold stemOf
  rw [splitAtLastDot_append s hs _ (by decide)]

lemma sfxOf_csv (s : List Char) (hs : '.' ∉ s) :
    sfxOf (s ++ ".csv".toList) = ".csv".toList := by
  have : s ++ ".csv".toList = s ++ '.' :: "csv".toList := rfl
  rw [this]
  unfold sfxOf
  rw [splitAtLastDot_append s hs _ (by decide)]
  rfl

/-! `BILL_RE.fullmatch` on the two generated stems. -/

lemma parseBillStem_startStem (t h m d mo y : Nat) (hh : h < 100)
    (hm : m < 100) (hd : d < 100) (hmo : mo < 100) (hy : y < 10000) :
    parseBillStem (startStem t h m d mo y)
      = some ⟨t, timeChars h m, none, dateChars d mo y⟩ := by
  have hform : startStem t h m d mo y
      = 'b' :: 'i' :: 'l' :: 'l' :: '_' ::
          (natChars t ++ '_' :: (timeChars h m ++ '_' :: dateChars d mo y)) := by
    simp [startStem]
  rw [hform]
  show (match parseNatU (natChars t ++ '_' :: (timeChars h m ++ '_' :: dateChars d mo y)) with
    | some (t2, r1) =>
      (match parseTime2U r1 with
       | some (s, r2) =>
         match parseStartRest t2 s r2 with
         | some meta => some meta
         | none => parseBillStem.parseStart1 t2 r1
       | none => parseBillStem.parseStart1 t2 r1)
    | none => none) = _
  rw [parseNatU_natChars t _]
  simp only []
  rw [parseTime2U_timeChars h m hh hm _]
  simp only []
  unfold parseStartRest
  rw [parseAfterStart_dateOnly d mo y hd hmo hy]

lemma parseBillStem_finishedStem (t h m eh em d mo y : Nat) (hh : h < 100)
    (hm : m < 100) (heh : eh < 100) (hem : em < 100) (hd : d < 100)
    (hmo : mo < 100) (hy : y < 10000) :
    parseBillStem ('b' :: 'i' :: 'l' :: 'l' :: '_' ::
        (natChars t ++ '_' :: (timeChars h m ++ '_' ::
          (timeChars eh em ++ '_' :: dateChars d mo y))))
      = some ⟨t, timeChars h m, some (timeChars eh em), dateChars d mo y⟩ := by
  show (match parseNatU (natChars t ++ '_' :: (timeChars h m ++ '_' ::
          (timeChars eh em ++ '_' :: dateChars d mo y))) with
    | some (t2, r1) =>
      (match parseTime2U r1 with
       | some (s, r2) =>
         match parseStartRest t2 s r2 with
         | some meta => some meta
         | none => parseBillStem.parseStart1 t2 r1
       | none => parseBillStem.parseStart1 t2 r1)
    | none => none) = _
  rw [parseNatU_natChars t _]
  simp only []
  rw [parseTime2U_timeChars h m hh hm _]
  simp only []
  unfold parseStartRest
  rw [parseAfterStart_endDate eh em d mo y heh hem hd hmo hy]

/-! The file names the session lifecycle produces. -/

lemma dot_notin_startStem (t h m d mo y : Nat) (hh : h < 100) (hm : m < 100)
    (hd : d < 100) (hmo : mo < 100) (hy : y < 10000) :
    '.' ∉ startStem t h m d mo y := by
  intro hc
  unfold startStem at hc
  rcases List.mem_append.mp hc with h1 | h1
  · rcases List.mem_append.mp h1 with h2 | h2
    · rcases List.mem_append.mp h2 with h3 | h3
      · exact absurd h3 (by decide)
      · exact dot_notin_natChars t h3
    · rcases List.mem_cons.mp h2 with h4 | h4
      · exact absurd h4 (by decide)
      · exact dot_notin_timeChars hh hm h4
  · rcases List.mem_cons.mp h1 with h4 | h4
    · exact absurd h4 (by decide)
    · exact dot_notin_dateChars hd hmo hy h4

lemma parse_start_name (t h m d mo y : Nat) (hh : h < 100) (hm : m < 100)
    (hd : d < 100) (hmo : mo < 100) (hy : y < 10000) :
    parse_bill_name (startFileName t h m d mo y)
      = some ⟨t, timeChars h m, none, dateChars d mo y⟩ := by
  unfold parse_bill_name startFileName
  rw [stemOf_csv _ (dot_notin_startStem t h m d mo y hh hm hd hmo hy)]
  exact parseBillStem_startStem t h m d mo y hh hm hd hmo hy

lemma dot_notin_finishedStem (t h m eh em d mo y : Nat) (hh : h < 100)
    (hm : m < 100) (heh : eh < 100) (hem : em < 100) (hd : d < 100)
    (hmo : mo < 100) (hy : y < 10000) :
    '.' ∉ ('b' :: 'i' :: 'l' :: 'l' :: '_' ::
      (natChars t ++ '_' :: (timeChars h m ++ '_' ::
        (timeChars eh em ++ '_' :: dateChars d mo y)))) := by
  intro hc
  rcases List.mem_cons.mp hc with h1 | h1
  · exact absurd h1 (by decide)
  · rcases List.mem_cons.mp h1 with h1 | h1
    · exact absurd h1 (by decide)
    · rcases List.mem_cons.mp h1 with h1 | h1
      · exact absurd h1 (by decide)
      · rcases List.mem_cons.mp h1 with h1 | h1
        · exact absurd h1 (by decide)
        · rcases List.mem_cons.mp h1 with h1 | h1
          · exact absurd h1 (by decide)
          · rcases List.mem_append.mp h1 with h2 | h2
            · exact dot_notin_natChars t h2
            · rcases List.mem_cons.mp h2 with h2 | h2
              · exact absurd h2 (by decide)
              · rcases List.mem_append.mp h2 with h3 | h3
                · exact dot_notin_timeChars hh hm h3
                · rcases List.mem_cons.mp h3 with h3 | h3
                  · exact absurd h3 (by decide)
                  · rcases List.mem_append.mp h3 with h4 | h4
                    · exact dot_notin_timeChars heh hem h4
                    · rcases List.mem_cons.mp h4 with h4 | h4
                      · exact absurd h4 (by decide)
                      · exact dot_notin_dateChars hd hmo hy h4

lemma parse_finished_name (t h m eh em d mo y : Nat) (hh : h < 100)
    (hm : m < 100) (heh : eh < 100) (hem : em < 100) (hd : d < 100)
    (hmo : mo < 100) (hy : y < 10000) :
    parse_bill_name (finishedFileName t h m eh em d mo y)
      = some ⟨t, timeChars h m, some (timeChars eh em), dateChars d mo y⟩ := by
  have e1 : finishedFileName t h m eh em d mo y
      = ('b' :: 'i' :: 'l' :: 'l' :: '_' ::
          (natChars t ++ '_' :: (timeChars h m ++ '_' ::
            (timeChars eh em ++ '_' :: dateChars d mo y)))) ++ ".csv".toList := by
    simp [finishedFileName]
  unfold parse_bill_name
  rw [e1, stemOf_csv _ (dot_notin_finishedStem t h m eh em d mo y hh hm heh hem hd hmo hy)]
  exact parseBillStem_finishedStem t h m eh em d mo y hh hm heh hem hd hmo hy

/-- The function `finish_session` on a session whose bill carries the start-name
renames it to exactly the four-part name with the end time inserted
before the date. -/
lemma finish_session_renames (app : App) (s : Sess) (t h m eh em d mo y : Nat)
    (hh : h < 100) (hm : m < 100) (heh : eh < 100) (hem : em < 100)
    (hd : d < 100) (hmo : mo < 100) (hy : y < 10000)
    (hs : app.sess = some s) (hb : s.billName = startFileName t h m d mo y) :
    finish_session app eh em
      = some ⟨fsRename app.fs s.billName (finishedFileName t h m eh em d mo y),
          false, none⟩ := by
  have hdot := dot_notin_startStem t h m d mo y hh hm hd hmo hy
  have hstem2 : stemOf s.billName = startStem t h m d mo y := by
    rw [hb]
    unfold startFileName
    exact stemOf_csv _ hdot
  have hsfx2 : sfxOf s.billName = ".csv".toList := by
    rw [hb]
    unfold startFileName
    exact sfxOf_csv _ hdot
  have hform : startStem t h m d mo y
      = ['b', 'i', 'l', 'l'] ++ '_' ::
          (natChars t ++ '_' :: (timeChars h m ++ '_' :: dateChars d mo y)) := by
    simp [startStem]
  have hsplit : splitUnd (startStem t h m d mo y)
      = [['b', 'i', 'l', 'l'], natChars t, timeChars h m, dateChars d mo y] := by
    rw [hform, splitUnd_append _ (by decide) _,
      splitUnd_append _ (und_notin_natChars t) _,
      splitUnd_append _ (und_notin_timeChars hh hm) _,
      splitUnd_no_und _ (und_notin_dateChars hd hmo hy)]
  have hjoin : joinUnd [['b', 'i', 'l', 'l'], natChars t, timeChars h m,
        timeChars eh em, dateChars d mo y] ++ ".csv".toList
      = finishedFileName t h m eh em d mo y := by
    simp [joinUnd, finishedFileName]
  unfold finish_session
  rw [hs]
  simp only [hstem2, hsplit, hsfx2, List.length_cons, List.length_nil,
    List.take, List.drop]
  norm_num
  rw [← hjoin]
  simp [joinUnd]

/-- C9: the name `start_session` writes parses back to exactly the
table id, start time, no end time, and date; `finish_session` renames
that file to the four-part name with the end time inserted, and that
name parses back to exactly the table id, start time, end time, and
date.  (Write-then-parse round trip for both lifecycle points.) -/
theorem c9_name_round_trip (t h m eh em d mo y : Nat) (hh : h < 100)
    (hm : m < 100) (heh : eh < 100) (hem : em < 100) (hd : d < 100)
    (hmo : mo < 100) (hy : y < 10000) :
    parse_bill_name (startFileName t h m d mo y)
      = some ⟨t, timeChars h m, none, dateChars d mo y⟩
    ∧ parse_bill_name (finishedFileName t h m eh em d mo y)
        = some ⟨t, timeChars h m, some (timeChars eh em), dateChars d mo y⟩
    ∧ ∀ (app : App) (s : Sess), app.sess = some s →
        s.billName = startFileName t h m d mo y →
        finish_session app eh em
          = some ⟨fsRename app.fs s.billName (finishedFileName t h m eh em d mo y),
              false, none⟩ :=
  ⟨parse_start_name t h m d mo y hh hm hd hmo hy,
   parse_finished_name t h m eh em d mo y hh hm heh hem hd hmo hy,
   fun app s hs hb =>
     finish_session_renames app s t h m eh em d mo y hh hm heh hem hd hmo hy hs hb⟩

/-- Witness for C9 at table 3, start 09:00, end 09:30, date 12-10-2025,
on the concrete `st1`-like application state. -/
theorem c9_witness :
    parse_bill_name (startFileName 3 9 0 12 10 2025)
      = some ⟨3, timeChars 9 0, none, dateChars 12 10 2025⟩
    ∧ parse_bill_name (finishedFileName 3 9 0 9 30 12 10 2025)
        = some ⟨3, timeChars 9 0, some (timeChars 9 30), dateChars 12 10 2025⟩
    ∧ ∀ (app : App) (s : Sess), app.sess = some s →
        s.billName = startFileName 3 9 0 12 10 2025 →
        finish_session app 9 30
          = some ⟨fsRename app.fs s.billName (finishedFileName 3 9 0 9 30 12 10 2025),
              false, none⟩ :=
  c9_name_round_trip 3 9 0 9 30 12 10 2025 (by decide) (by decide) (by decide)
    (by decide) (by decide) (by decide) (by decide)

end Beer
